import Mathlib

/-!
Verification of the reconciliation core of the rclone_papi repository.

The development shallowly embeds the pure comparison / planning / triage
logic of the three scripts:

* `scripts/rclone_papi.py` — directory-mode differ (`complete_list_check`),
  the deepest-first deletion order, and the purge-failure triage loop;
* `scripts/rclone_papi_st_check.py` — file-mode differ
  (`complete_file_list_check`) with size / truncated-modification-time
  classification;
* the shared CSV batch-input row filter of both `__main__` blocks.

External effects (rclone invocations, logging, the filesystem) are
represented by explicit inputs: listings become `Finset String` or
`List FileEntry` values, the purge call becomes an oracle
`String → PurgeOutcome`, and the library timestamp parser
`datetime.fromisoformat` becomes a function parameter
`String → Option PyDatetime`.  Everything downstream of those inputs is
translated line by line from the Python source.
-/

namespace PyStr

/-- Characters stripped by the Python `str.strip()` method with no
argument: ASCII whitespace plus the Unicode space separators. -/
def py_whitespace : List Char :=
  [' ', '\t', '\n', '\r', '\x0b', '\x0c',
   '\x1c', '\x1d', '\x1e', '\x1f', '\x85', '\xa0',
   ' ', ' ', ' ', ' ', ' ', ' ', ' ',
   ' ', ' ', ' ', ' ', ' ', ' ', ' ',
   ' ', ' ', '　']

/-- Python `str.isspace` on a single character (the set used by `strip`). -/
def py_is_space (c : Char) : Bool := py_whitespace.contains c

/-- Python `s.strip()`: drop leading and trailing whitespace. -/
def py_strip (s : String) : String :=
  ⟨((s.data.dropWhile py_is_space).reverse.dropWhile py_is_space).reverse⟩

/-- Python `s.strip(c)` for a one-character argument: drop leading and
trailing occurrences of `c`. -/
def py_strip_char (s : String) (c : Char) : String :=
  ⟨((s.data.dropWhile (· = c)).reverse.dropWhile (· = c)).reverse⟩

/-- Python `s.rstrip(c)` for a one-character argument: drop trailing
occurrences of `c`. -/
def py_rstrip_char (s : String) (c : Char) : String :=
  ⟨(s.data.reverse.dropWhile (· = c)).reverse⟩

/-- Python `s.replace(c, rep)` for a one-character pattern `c`: every
occurrence of the character is replaced by the string `rep`. -/
def py_replace_char (s : String) (c : Char) (rep : String) : String :=
  ⟨s.data.flatMap (fun ch => if ch = c then rep.data else [ch])⟩

/-- Python `s.lower()`, restricted to the ASCII range (the error texts
matched by the purge triage are ASCII). -/
def py_lower (s : String) : String := ⟨s.data.map Char.toLower⟩

/-- Whether `pat` is a prefix of `l` (character lists). -/
def starts_with_chars : List Char → List Char → Bool
  | [], _ => true
  | _ :: _, [] => false
  | p :: ps, c :: cs => p = c && starts_with_chars ps cs

/-- Whether `pat` occurs as a contiguous run inside `l`. -/
def has_substring (pat : List Char) : List Char → Bool
  | [] => pat.isEmpty
  | c :: cs => starts_with_chars pat (c :: cs) || has_substring pat cs

/-- Python `sub in s` on strings: substring containment. -/
def py_in (sub s : String) : Bool := has_substring sub.data s.data

end PyStr

namespace RclonePapi

open PyStr

/-- Step 4 of `complete_list_check`: `sorted(source_list - target_structure)`,
the ascending-sorted list of folders present only on the source. -/
def to_create (source_list target_structure : Finset String) : List String :=
  (source_list \ target_structure).sort (· ≤ ·)

/-- Step 4 of `complete_list_check`: `sorted(target_structure - source_list)`,
the ascending-sorted list of folders present only on the target. -/
def to_delete (source_list target_structure : Finset String) : List String :=
  (target_structure \ source_list).sort (· ≤ ·)

/-- Python `len(p.split(sep))` for the one-character separator `/`: the
number of separator occurrences plus one. -/
def depth (p : String) : Nat := p.data.count '/' + 1

/-- Step 6 of `complete_list_check`:
`sorted(to_delete, key=lambda p: len(p.split(sep)), reverse=True)`.
CPython `sorted` is a stable sort; with `reverse=True` each comparison is
reversed while ties keep their input order, which is exactly
`List.mergeSort` with the test `depth b ≤ depth a`. -/
def sorted_to_delete (source_list target_structure : Finset String) : List String :=
  (to_delete source_list target_structure).mergeSort
    (fun a b => decide (depth b ≤ depth a))

/-- The f-string `f"{root_dst}/{rel_path}".rstrip(sep)` used by the purge
loop. -/
def full_dst_path (root_dst rel_path : String) : String :=
  py_rstrip_char (root_dst ++ "/" ++ rel_path) '/'

/-- The total order realized by the deletion sort: strictly deeper paths
first, ties in ascending lexical order (the tie order is inherited from
the ascending `to_delete` input because the sort is stable). -/
def delete_rel (a b : String) : Prop :=
  depth b < depth a ∨ (depth a = depth b ∧ a ≤ b)

/-- Outcome of one `rclone purge` invocation, as observed by the `except`
block: either success, or an exception text together with the stderr the
block may recover from the underlying result. -/
inductive PurgeOutcome where
  | success
  | failure (exc_text : String) (captured_stderr : Option String)

/-- The `error_msg` built in the purge `except` block: the lowercased
exception text, with the captured stderr appended verbatim when present. -/
def error_msg (exc_text : String) (captured_stderr : Option String) : String :=
  match captured_stderr with
  | some st => py_lower exc_text ++ " (stderr: " ++ st ++ ")"
  | none => py_lower exc_text

/-- One log line emitted by the purge loop for one item. -/
inductive PurgeLog where
  | purged (full_path : String)
  | warn_not_empty (full_path msg : String)
  | warn_not_found (full_path msg : String)
  | error_failed (full_path msg : String)
deriving DecidableEq

/-- The deletion loop of `complete_list_check` step 6: purge each item of
`sorted_to_delete` in order, triage failures by their error text, count
successes, and record one log line per item.  The `purge` oracle stands
for the external `rclone purge` call on the full destination path. -/
def purge_loop (root_dst : String) (purge : String → PurgeOutcome) :
    List String → Nat × List PurgeLog
  | [] => (0, [])
  | rel_path :: rest =>
    let full := full_dst_path root_dst rel_path
    let entry : PurgeLog × Bool :=
      match purge full with
      | .success => (.purged full, true)
      | .failure exc st =>
        let msg := error_msg exc st
        if py_in "directory not empty" msg then (.warn_not_empty full msg, false)
        else if py_in "not found" msg || py_in "exit status 3" msg then
          (.warn_not_found full msg, false)
        else (.error_failed full msg, false)
    let r := purge_loop root_dst purge rest
    (if entry.2 then r.1 + 1 else r.1, entry.1 :: r.2)

/-- The per-item triage contract relating one `rel_path` of the deletion
list to the log line the loop records for it. -/
def triage_spec (root_dst : String) (purge : String → PurgeOutcome)
    (rel_path : String) (entry : PurgeLog) : Prop :=
  (purge (full_dst_path root_dst rel_path) = .success →
    entry = .purged (full_dst_path root_dst rel_path)) ∧
  ∀ exc st, purge (full_dst_path root_dst rel_path) = .failure exc st →
    (py_in "directory not empty" (error_msg exc st) = true →
      entry = .warn_not_empty (full_dst_path root_dst rel_path) (error_msg exc st)) ∧
    (py_in "directory not empty" (error_msg exc st) = false →
      (py_in "not found" (error_msg exc st) || py_in "exit status 3" (error_msg exc st)) = true →
      entry = .warn_not_found (full_dst_path root_dst rel_path) (error_msg exc st)) ∧
    (py_in "directory not empty" (error_msg exc st) = false →
      (py_in "not found" (error_msg exc st) || py_in "exit status 3" (error_msg exc st)) = false →
      entry = .error_failed (full_dst_path root_dst rel_path) (error_msg exc st))

/-- The CSV row loop shared by both `__main__` blocks: rows with fewer than
two columns or a blank (whitespace-stripped) source or destination column
are skipped; kept rows normalize backslashes in the stripped source and
strip quotes from the stripped destination. -/
def process_rows : List (List String) → List (String × String)
  | [] => []
  | row :: rest =>
    match row with
    | r0 :: r1 :: _ =>
      if py_strip r0 = "" ∨ py_strip r1 = "" then process_rows rest
      else (py_replace_char (py_strip r0) '\\' "/", py_strip_char (py_strip r1) '"')
            :: process_rows rest
    | _ => process_rows rest

/-- The batch pair list built by the `__main__` blocks: `next(reader)`
discards the header row, then every remaining row passes through the
filter loop.  On an empty file `next` raises `StopIteration`, the outer
handler logs it, and no pair is processed. -/
def folders_to_sync : List (List String) → List (String × String)
  | [] => []
  | _header :: rest => process_rows rest

end RclonePapi

namespace RclonePapiStCheck

open PyStr

/-- One normalized listing item built by `complete_file_list_check` from an
`lsjson` record: path, raw modification-time string, size, CRC-32 hash and
directory flag. -/
structure FileEntry where
  path : String
  mod_time : String
  size : Int
  crc : String
  is_dir : Bool
deriving DecidableEq

/-- A value of the Python `datetime` class as far as the script observes
it: calendar fields, microsecond, and the utcoffset in minutes (`none` for
a naive datetime). -/
structure PyDatetime where
  year : Nat
  month : Nat
  day : Nat
  hour : Nat
  minute : Nat
  second : Nat
  microsecond : Nat
  utcoffset_minutes : Option Int
deriving DecidableEq

/-- Python `dt.replace(microsecond=0)`: truncation to whole seconds. -/
def replace_microsecond_zero (d : PyDatetime) : PyDatetime :=
  { d with microsecond := 0 }

/-- Whether `y` is a leap year of the proleptic Gregorian calendar. -/
def is_leap (y : Nat) : Bool := (y % 4 = 0 && y % 100 ≠ 0) || y % 400 = 0

/-- Month lengths of year `y`. -/
def month_lengths (y : Nat) : List Nat :=
  [31, if is_leap y then 29 else 28, 31, 30, 31, 30, 31, 31, 30, 31, 30, 31]

/-- Days in year `y` strictly before month `m`. -/
def days_before_month (y m : Nat) : Nat := ((month_lengths y).take (m - 1)).sum

/-- The proleptic Gregorian ordinal of a date, as in `datetime.toordinal`. -/
def toordinal (y m d : Nat) : Int :=
  365 * ((y : Int) - 1) + ((y - 1) / 4 : Nat) - ((y - 1) / 100 : Nat)
    + ((y - 1) / 400 : Nat) + days_before_month y m + d

/-- The instant of an aware datetime with offset `off` minutes, in seconds
(ignoring the microsecond field, which Python compares separately). -/
def instant_seconds (dt : PyDatetime) (off : Int) : Int :=
  toordinal dt.year dt.month dt.day * 86400
    + dt.hour * 3600 + dt.minute * 60 + dt.second - off * 60

/-- Python `datetime.__eq__`: naive values compare by fields, aware values
compare as instants, and a naive value never equals an aware one. -/
def py_datetime_eq (a b : PyDatetime) : Bool :=
  match a.utcoffset_minutes, b.utcoffset_minutes with
  | none, none => decide (a = b)
  | some oa, some ob =>
    decide (instant_seconds a oa = instant_seconds b ob) &&
      decide (a.microsecond = b.microsecond)
  | _, _ => false

/-- The modification-time comparison of `complete_file_list_check`: replace
`Z` by `+00:00`, parse both strings with the library parser
`datetime.fromisoformat` (passed as the `fromisoformat` parameter, `none`
standing for a raised `ValueError` or `TypeError`), compare the parses
truncated to whole seconds, and on any parse failure fall back to equality
of the raw strings. -/
def modtime_different (fromisoformat : String → Option PyDatetime)
    (src_mod tgt_mod : String) : Bool :=
  match fromisoformat (py_replace_char src_mod 'Z' "+00:00"),
        fromisoformat (py_replace_char tgt_mod 'Z' "+00:00") with
  | some source_dt, some target_dt =>
    !(py_datetime_eq (replace_microsecond_zero source_dt)
        (replace_microsecond_zero target_dt))
  | _, _ => decide (src_mod ≠ tgt_mod)

/-- The `type` tag of one difference dictionary. -/
inductive DiffType where
  | MISSING_IN_TARGET
  | MISSING_IN_SOURCE
  | DIFFERENT
deriving DecidableEq

/-- One dictionary appended to the `differences` list.  The two boolean
fields are only set on `DIFFERENT` records in the source; the report
writer reads them through `.get(key, False)`, which this embedding bakes
in as the value `false` on the missing records. -/
structure Difference where
  type : DiffType
  path : String
  source_size : Option Int
  source_modtime : Option String
  target_size : Option Int
  target_modtime : Option String
  size_different : Bool
  modtime_different : Bool
deriving DecidableEq

/-- The lookup dictionaries `{item[path]: item for item in structure}`:
on duplicate paths the later item wins. -/
def dict_get (structure_list : List FileEntry) (p : String) : Option FileEntry :=
  structure_list.reverse.find? (fun e => e.path = p)

/-- `all_paths = set(source_dict.keys()) | set(target_dict.keys())`. -/
def all_paths (source_structure target_structure : List FileEntry) : Finset String :=
  (source_structure.map FileEntry.path).toFinset ∪
    (target_structure.map FileEntry.path).toFinset

/-- The iteration order `for path in sorted(all_paths)`. -/
def all_paths_sorted (source_structure target_structure : List FileEntry) : List String :=
  (all_paths source_structure target_structure).sort (· ≤ ·)

/-- The body of the comparison loop for one path: which difference
dictionary (if any) is appended for `path`.  A path present in both
listings with equal size and no modification-time difference appends
nothing. -/
def classify_path (fromisoformat : String → Option PyDatetime)
    (source_structure target_structure : List FileEntry) (path : String) :
    Option Difference :=
  match dict_get source_structure path, dict_get target_structure path with
  | some s, none =>
    some ⟨.MISSING_IN_TARGET, path, some s.size, some s.mod_time, none, none, false, false⟩
  | none, some t =>
    some ⟨.MISSING_IN_SOURCE, path, none, none, some t.size, some t.mod_time, false, false⟩
  | some s, some t =>
    let size_different := decide (s.size ≠ t.size)
    let mt_different := modtime_different fromisoformat s.mod_time t.mod_time
    if size_different || mt_different then
      some ⟨.DIFFERENT, path, some s.size, some s.mod_time, some t.size, some t.mod_time,
            size_different, mt_different⟩
    else none
  | none, none => none

/-- The `differences` list built by `complete_file_list_check` step 3: one
classification pass over the sorted union of paths. -/
def differences (fromisoformat : String → Option PyDatetime)
    (source_structure target_structure : List FileEntry) : List Difference :=
  (all_paths_sorted source_structure target_structure).filterMap
    (classify_path fromisoformat source_structure target_structure)

/-- Rewrite the `crc` field of every entry of a listing (used to state that
the collected hash is never consulted by the classification). -/
def with_crc (f : FileEntry → String) (l : List FileEntry) : List FileEntry :=
  l.map (fun e => { e with crc := f e })

/-- A small concrete stand-in for `datetime.fromisoformat`, used only to
instantiate the parametric theorems at concrete inputs: it parses exactly
the two tags `s1` and `s2`, to datetimes that differ only in their
microsecond field. -/
def sample_fromisoformat : String → Option PyDatetime := fun s =>
  if s = "s1" then some ⟨2024, 1, 2, 3, 4, 5, 100, some 0⟩
  else if s = "s2" then some ⟨2024, 1, 2, 3, 4, 5, 200, some 0⟩
  else none

end RclonePapiStCheck

/-! ## General list lemmas -/

theorem pair_sublist_of_pairwise_lt {α : Type _} [Preorder α] {l : List α} {a b : α}
    (hs : l.Pairwise (· < ·)) (ha : a ∈ l) (hb : b ∈ l) (hab : a < b) :
    ([a, b]).Sublist l := by
  induction l with
  | nil => cases ha
  | cons x xs ih =>
    rcases List.mem_cons.mp ha with rfl | ha'
    · rcases List.mem_cons.mp hb with rfl | hb'
      · exact absurd hab (lt_irrefl _)
      · exact (List.singleton_sublist.mpr hb').cons₂ _
    · rcases List.mem_cons.mp hb with rfl | hb'
      · have hba := (List.pairwise_cons.mp hs).1 _ ha'
        exact absurd (hab.trans hba) (lt_irrefl _)
      · exact ((ih (List.pairwise_cons.mp hs).2 ha' hb').cons x)

theorem nodup_pair_sublist_asymm {α : Type _} {l : List α} {a b : α}
    (hnd : l.Nodup) (h1 : ([a, b]).Sublist l) (h2 : ([b, a]).Sublist l) (hab : a ≠ b) : False := by
  induction l with
  | nil => cases h1
  | cons x xs ih =>
    rcases List.nodup_cons.mp hnd with ⟨hx, hxs⟩
    cases h1 with
    | cons _ h1' =>
      cases h2 with
      | cons _ h2' => exact ih hxs h1' h2'
      | cons₂ _ h2' => exact hx (h1'.subset (by simp))
    | cons₂ _ h1' =>
      cases h2 with
      | cons _ h2' => exact hx (h2'.subset (by simp))
      | cons₂ _ h2' => exact hab rfl

theorem map_filterMap_sublist {α β : Type _} (f : α → Option β) (g : β → α)
    (hfg : ∀ a b, f a = some b → g b = a) :
    ∀ l : List α, ((l.filterMap f).map g).Sublist l := by
  intro l
  induction l with
  | nil => simp
  | cons x xs ih =>
    cases hfx : f x with
    | none =>
      rw [List.filterMap_cons_none hfx]
      exact ih.cons x
    | some b =>
      rw [List.filterMap_cons_some hfx, List.map_cons, hfg x b hfx]
      exact ih.cons₂ x

theorem countP_filterMap_keyed {α β : Type _} [DecidableEq α]
    (f : α → Option β) (g : β → α) (hfg : ∀ a b, f a = some b → g b = a) (p : α) :
    ∀ l : List α, l.Nodup →
      (l.filterMap f).countP (fun b => decide (g b = p))
        = if p ∈ l ∧ (f p).isSome then 1 else 0 := by
  intro l
  induction l with
  | nil => simp
  | cons x xs ih =>
    intro hnd
    rcases List.nodup_cons.mp hnd with ⟨hx, hxs⟩
    cases hfx : f x with
    | none =>
      rw [List.filterMap_cons_none hfx, ih hxs]
      by_cases hpx : p = x
      · subst hpx
        simp [hx, hfx]
      · simp [List.mem_cons, hpx]
    | some b =>
      rw [List.filterMap_cons_some hfx, List.countP_cons, ih hxs]
      have hgb : g b = x := hfg x b hfx
      by_cases hpx : p = x
      · subst hpx
        simp [hx, hgb, hfx]
      · have : ¬ (g b = p) := by rw [hgb]; exact fun h => hpx h.symm
        simp [List.mem_cons, hpx, this]

/-! ## Directory-mode differ and deletion planner (rclone_papi.py) -/

namespace RclonePapi

theorem depth_le_test_trans : ∀ (a b c : String),
    decide (depth b ≤ depth a) = true → decide (depth c ≤ depth b) = true →
    decide (depth c ≤ depth a) = true := by
  intro a b c hab hbc
  simp only [decide_eq_true_eq] at hab hbc ⊢
  omega

theorem depth_le_test_total : ∀ (a b : String),
    (decide (depth b ≤ depth a) || decide (depth a ≤ depth b)) = true := by
  intro a b
  simp only [Bool.or_eq_true, decide_eq_true_eq]
  omega

theorem sorted_to_delete_perm (S D : Finset String) :
    List.Perm (sorted_to_delete S D) (to_delete S D) :=
  List.mergeSort_perm _ _

theorem sorted_to_delete_nodup (S D : Finset String) :
    (sorted_to_delete S D).Nodup :=
  ((sorted_to_delete_perm S D).nodup_iff).mpr (Finset.sort_nodup _ _)

theorem mem_sorted_to_delete {S D : Finset String} {x : String} :
    x ∈ sorted_to_delete S D ↔ x ∈ D \ S := by
  rw [sorted_to_delete, List.mem_mergeSort, to_delete, Finset.mem_sort]

theorem sorted_to_delete_pairwise_depth (S D : Finset String) :
    (sorted_to_delete S D).Pairwise (fun a b => depth b ≤ depth a) := by
  have h := @List.sorted_mergeSort String (fun a b => decide (depth b ≤ depth a))
    depth_le_test_trans depth_le_test_total (to_delete S D)
  exact h.imp (fun hab => by simpa using hab)

theorem sorted_to_delete_pairwise_rel (S D : Finset String) :
    (sorted_to_delete S D).Pairwise delete_rel := by
  rw [List.pairwise_iff_forall_sublist]
  intro a b hsub
  have hdep : depth b ≤ depth a := by
    have := List.pairwise_iff_forall_sublist.mp (sorted_to_delete_pairwise_depth S D) hsub
    exact this
  rcases Nat.lt_or_ge (depth b) (depth a) with hlt | hge
  · exact Or.inl hlt
  · have heq : depth a = depth b := Nat.le_antisymm hge hdep
    refine Or.inr ⟨heq, ?_⟩
    by_contra hnle
    have hba : b < a := lt_of_not_le hnle
    have hane : a ≠ b := fun h => by rw [h] at hba; exact lt_irrefl b hba
    have hmem_a : a ∈ to_delete S D := by
      have h1 : a ∈ sorted_to_delete S D := hsub.subset (by simp)
      rw [sorted_to_delete, List.mem_mergeSort] at h1
      exact h1
    have hmem_b : b ∈ to_delete S D := by
      have h1 : b ∈ sorted_to_delete S D := hsub.subset (by simp)
      rw [sorted_to_delete, List.mem_mergeSort] at h1
      exact h1
    have hpair : ([b, a]).Sublist (to_delete S D) :=
      pair_sublist_of_pairwise_lt (Finset.sort_sorted_lt _) hmem_b hmem_a hba
    have hws : ([b, a]).Sublist (sorted_to_delete S D) := by
      rw [sorted_to_delete]
      exact List.pair_sublist_mergeSort depth_le_test_trans depth_le_test_total
        (by simp [heq]) hpair
    exact nodup_pair_sublist_asymm (sorted_to_delete_nodup S D) hsub hws hane

theorem sorted_to_delete_deeper_first (S D : Finset String) {x y : String}
    (hx : x ∈ sorted_to_delete S D) (hy : y ∈ sorted_to_delete S D)
    (hxy : depth y < depth x) :
    (sorted_to_delete S D).indexOf x < (sorted_to_delete S D).indexOf y := by
  have hxne : x ≠ y := fun h => by rw [h] at hxy; exact lt_irrefl _ hxy
  have hxl : (sorted_to_delete S D).indexOf x < (sorted_to_delete S D).length :=
    List.indexOf_lt_length.mpr hx
  have hyl : (sorted_to_delete S D).indexOf y < (sorted_to_delete S D).length :=
    List.indexOf_lt_length.mpr hy
  rcases Nat.lt_trichotomy ((sorted_to_delete S D).indexOf x)
      ((sorted_to_delete S D).indexOf y) with h | h | h
  · exact h
  · exact absurd ((List.indexOf_inj hx hy).mp h) hxne
  · exfalso
    have hp := (List.pairwise_iff_getElem.mp (sorted_to_delete_pairwise_rel S D))
      ((sorted_to_delete S D).indexOf y) ((sorted_to_delete S D).indexOf x) hyl hxl h
    rw [List.getElem_indexOf hyl, List.getElem_indexOf hxl] at hp
    rcases hp with hlt | ⟨heq, -⟩
    · exact absurd (hxy.trans hlt) (lt_irrefl _)
    · rw [heq] at hxy; exact lt_irrefl _ hxy

theorem depth_lt_depth_append (a r : String) : depth a < depth (a ++ "/" ++ r) := by
  unfold depth
  have hdata : (a ++ "/" ++ r).data = a.data ++ ('/' :: r.data) := by
    rw [String.data_append, String.data_append, List.append_assoc]
    rfl
  rw [hdata, List.count_append]
  simp [List.count_cons]

/-- C1: for finite path sets `S` (source) and `D` (destination), the
directory-mode differ of `complete_list_check` produces `to_create` and
`to_delete` as the ascending-sorted duplicate-free enumerations of
`S − D` and `D − S` respectively; the two lists are disjoint, and
together with `S ∩ D` they cover exactly `S ∪ D`. -/
theorem c1_directory_differ (S D : Finset String) :
    List.Sorted (· ≤ ·) (to_create S D) ∧ (to_create S D).Nodup ∧
    List.Sorted (· ≤ ·) (to_delete S D) ∧ (to_delete S D).Nodup ∧
    (∀ x, x ∈ to_create S D ↔ x ∈ S ∧ x ∉ D) ∧
    (∀ x, x ∈ to_delete S D ↔ x ∈ D ∧ x ∉ S) ∧
    (∀ x, x ∈ to_create S D → x ∉ to_delete S D) ∧
    (∀ x, (x ∈ to_create S D ∨ x ∈ to_delete S D ∨ x ∈ S ∩ D) ↔ x ∈ S ∪ D) := by
  refine ⟨Finset.sort_sorted _ _, Finset.sort_nodup _ _, Finset.sort_sorted _ _,
    Finset.sort_nodup _ _, ?_, ?_, ?_, ?_⟩
  · intro x; rw [to_create, Finset.mem_sort, Finset.mem_sdiff]
  · intro x; rw [to_delete, Finset.mem_sort, Finset.mem_sdiff]
  · intro x hc hd
    rw [to_create, Finset.mem_sort, Finset.mem_sdiff] at hc
    rw [to_delete, Finset.mem_sort, Finset.mem_sdiff] at hd
    exact hc.2 hd.1
  · intro x
    rw [to_create, to_delete, Finset.mem_sort, Finset.mem_sort, Finset.mem_sdiff,
      Finset.mem_sdiff, Finset.mem_inter, Finset.mem_union]
    tauto

/-- Witness for C1 at the concrete input `S = {"a"}`, `D = ∅`. -/
theorem c1_directory_differ_witness :
    "a" ∈ to_create {"a"} ∅ ↔ "a" ∈ ({"a"} : Finset String) ∧ "a" ∉ (∅ : Finset String) :=
  (c1_directory_differ {"a"} ∅).2.2.2.2.1 "a"

/-- C2: the deletion order of `complete_list_check` is a permutation of the
`to_delete` list, sorted by path depth descending (`depth` is the
separator count plus one); every strictly deeper path is placed before
every strictly shallower path, and paths of equal depth keep the
ascending lexical order of the input (the sort is stable). -/
theorem c2_delete_order (S D : Finset String) :
    List.Perm (sorted_to_delete S D) (to_delete S D) ∧
    (sorted_to_delete S D).Pairwise (fun a b => depth b ≤ depth a) ∧
    (sorted_to_delete S D).Pairwise (fun a b => depth a = depth b → a < b) ∧
    (∀ x ∈ sorted_to_delete S D, ∀ y ∈ sorted_to_delete S D, depth y < depth x →
      (sorted_to_delete S D).indexOf x < (sorted_to_delete S D).indexOf y) := by
  refine ⟨sorted_to_delete_perm S D, sorted_to_delete_pairwise_depth S D, ?_, ?_⟩
  · have hrel := sorted_to_delete_pairwise_rel S D
    have hnd : (sorted_to_delete S D).Pairwise (· ≠ ·) := sorted_to_delete_nodup S D
    refine (hrel.and hnd).imp ?_
    rintro a b ⟨hr, hne⟩ heq
    rcases hr with hlt | ⟨-, hle⟩
    · rw [heq] at hlt; exact absurd hlt (lt_irrefl _)
    · exact lt_of_le_of_ne hle hne
  · intro x hx y hy hxy
    exact sorted_to_delete_deeper_first S D hx hy hxy

/-- Witness for C2 at `S = ∅`, `D = {"a", "b/c"}`: the depth-2 path is
placed before the depth-1 path. -/
theorem c2_delete_order_witness :
    (sorted_to_delete ∅ {"a", "b/c"}).indexOf "b/c"
      < (sorted_to_delete ∅ {"a", "b/c"}).indexOf "a" := by
  have h := (c2_delete_order ∅ {"a", "b/c"}).2.2.2
  have hm1 : "b/c" ∈ sorted_to_delete ∅ {"a", "b/c"} := by
    rw [mem_sorted_to_delete]; decide
  have hm2 : "a" ∈ sorted_to_delete ∅ {"a", "b/c"} := by
    rw [mem_sorted_to_delete]; decide
  exact h "b/c" hm1 "a" hm2 (by decide)

/-- C5 counterexample: with an empty source and destination set
`{"x/y", "x/y/z"}`, the ancestor `x/y` is in the delete set, yet the child
`x/y/z` is still emitted in the deletion order — the planner does not
prune descendants of a deleted ancestor, contradicting the claim that
only the top-most missing entry is emitted. -/
theorem c5_counterexample :
    "x/y" ∈ to_delete ∅ {"x/y", "x/y/z"} ∧
    "x/y/z" ∈ sorted_to_delete ∅ {"x/y", "x/y/z"} := by
  constructor
  · rw [to_delete, Finset.mem_sort]; decide
  · rw [mem_sorted_to_delete]; decide

/-- C5 amended: for a destination-only subtree the planner emits every
missing entry — descendants included, even when their ancestor is already
in the delete set — and orders each descendant strictly before its
ancestor (a descendant is strictly deeper, and the deletion order is
deepest-first). -/
theorem c5_amended_subtree_deletion (S D : Finset String) (anc rest : String)
    (hanc : anc ∈ D \ S) (hchild : anc ++ "/" ++ rest ∈ D \ S) :
    anc ++ "/" ++ rest ∈ sorted_to_delete S D ∧
    anc ∈ sorted_to_delete S D ∧
    (sorted_to_delete S D).indexOf (anc ++ "/" ++ rest)
      < (sorted_to_delete S D).indexOf anc := by
  have h1 : anc ++ "/" ++ rest ∈ sorted_to_delete S D := mem_sorted_to_delete.mpr hchild
  have h2 : anc ∈ sorted_to_delete S D := mem_sorted_to_delete.mpr hanc
  exact ⟨h1, h2, sorted_to_delete_deeper_first S D h1 h2 (depth_lt_depth_append anc rest)⟩

/-- Witness for the amended C5 at `S = ∅`, `D = {"x/y", "x/y/z"}`. -/
theorem c5_amended_subtree_deletion_witness :
    "x/y" ++ "/" ++ "z" ∈ sorted_to_delete ∅ {"x/y", "x/y/z"} ∧
    "x/y" ∈ sorted_to_delete ∅ {"x/y", "x/y/z"} ∧
    (sorted_to_delete ∅ {"x/y", "x/y/z"}).indexOf ("x/y" ++ "/" ++ "z")
      < (sorted_to_delete ∅ {"x/y", "x/y/z"}).indexOf "x/y" :=
  c5_amended_subtree_deletion ∅ {"x/y", "x/y/z"} "x/y" "z" (by decide) (by decide)

end RclonePapi

/-! ## File-mode differ (rclone_papi_st_check.py) -/

namespace RclonePapiStCheck

open PyStr

theorem classify_path_path {f : String → Option PyDatetime}
    {src tgt : List FileEntry} {p : String} {d : Difference}
    (h : classify_path f src tgt p = some d) : d.path = p := by
  rcases hs : dict_get src p with _ | s
  · rcases ht : dict_get tgt p with _ | t
    · simp [classify_path, hs, ht] at h
    · simp only [classify_path, hs, ht] at h
      injection h with h2
      rw [← h2]
  · rcases ht : dict_get tgt p with _ | t
    · simp only [classify_path, hs, ht] at h
      injection h with h2
      rw [← h2]
    · simp only [classify_path, hs, ht] at h
      split at h
      · injection h with h2
        rw [← h2]
      · exact Option.noConfusion h

theorem all_paths_sorted_pairwise_lt (src tgt : List FileEntry) :
    (all_paths_sorted src tgt).Pairwise (· < ·) :=
  Finset.sort_sorted_lt _

theorem all_paths_sorted_nodup (src tgt : List FileEntry) :
    (all_paths_sorted src tgt).Nodup :=
  Finset.sort_nodup _ _

theorem mem_all_paths_sorted {src tgt : List FileEntry} {p : String} :
    p ∈ all_paths_sorted src tgt ↔ p ∈ all_paths src tgt :=
  Finset.mem_sort _

/-- C10: the file-mode differ emits its difference records in strictly
ascending lexicographic path order, with every path occurring at most
once; determinism on identical listings is immediate because the
embedding is a pure function of the two listings. -/
theorem c10_output_ordering (f : String → Option PyDatetime) (src tgt : List FileEntry) :
    (differences f src tgt).Pairwise (fun a b => a.path < b.path) ∧
    ((differences f src tgt).map Difference.path).Nodup := by
  have hsub := map_filterMap_sublist (classify_path f src tgt) Difference.path
    (fun a b hb => classify_path_path hb) (all_paths_sorted src tgt)
  have hpw : ((differences f src tgt).map Difference.path).Pairwise (· < ·) :=
    (all_paths_sorted_pairwise_lt src tgt).sublist hsub
  exact ⟨List.pairwise_map.mp hpw, hpw.imp (fun hab => ne_of_lt hab)⟩

/-- C3 counterexample: a path present and EQUAL in both listings (same
size, same raw modification time) appears in the union of paths but in
zero emitted difference records, refuting "exactly one record for every
path in the union, including EQUAL paths". -/
theorem c3_counterexample :
    "a" ∈ all_paths [⟨"a", "t", 10, "", false⟩] [⟨"a", "t", 10, "", false⟩] ∧
    differences (fun _ => none)
      [⟨"a", "t", 10, "", false⟩] [⟨"a", "t", 10, "", false⟩] = [] := by
  constructor
  · simp [all_paths]
  · have hap : all_paths [⟨"a", "t", 10, "", false⟩]
        [(⟨"a", "t", 10, "", false⟩ : FileEntry)] = {"a"} := by
      simp [all_paths]
    rw [differences, all_paths_sorted, hap, Finset.sort_singleton]
    simp [classify_path, dict_get, modtime_different]

/-- C3 amended: every path appears in at most one emitted record; a path
of the union appears in exactly one record when the classification emits
one for it, and in none otherwise — in particular a path present in both
listings with equal size and no modification-time difference (an EQUAL
path) yields no record at all. -/
theorem c3_amended_classification (f : String → Option PyDatetime)
    (src tgt : List FileEntry) (p : String) :
    ((differences f src tgt).countP (fun d => decide (d.path = p)) ≤ 1) ∧
    (p ∈ all_paths src tgt →
      (differences f src tgt).countP (fun d => decide (d.path = p))
        = if (classify_path f src tgt p).isSome then 1 else 0) ∧
    (classify_path f src tgt p = none →
      (differences f src tgt).countP (fun d => decide (d.path = p)) = 0) ∧
    (∀ s t, dict_get src p = some s → dict_get tgt p = some t →
      s.size = t.size → modtime_different f s.mod_time t.mod_time = false →
      classify_path f src tgt p = none) := by
  have hcount := countP_filterMap_keyed (classify_path f src tgt) Difference.path
    (fun a b hb => classify_path_path hb) p (all_paths_sorted src tgt)
    (all_paths_sorted_nodup src tgt)
  refine ⟨?_, ?_, ?_, ?_⟩
  · rw [differences, hcount]
    split <;> simp
  · intro hp
    have hmem : p ∈ all_paths_sorted src tgt := mem_all_paths_sorted.mpr hp
    rw [differences, hcount]
    simp [hmem]
  · intro hnone
    rw [differences, hcount, hnone]
    simp
  · intro s t hs ht hsize hmt
    simp [classify_path, hs, ht, hsize, hmt]

/-- Witness for the amended C3 at a one-path input where the entry differs
in size, so exactly one record is emitted. -/
theorem c3_amended_classification_witness :
    (differences (fun _ => none)
        [⟨"a", "t", 10, "", false⟩] [⟨"a", "t", 11, "", false⟩]).countP
      (fun d => decide (d.path = "a"))
      = if (classify_path (fun _ => none)
          [⟨"a", "t", 10, "", false⟩] [⟨"a", "t", 11, "", false⟩] "a").isSome
        then 1 else 0 := by
  refine (c3_amended_classification (fun _ => none)
    [⟨"a", "t", 10, "", false⟩] [⟨"a", "t", 11, "", false⟩] "a").2.1 ?_
  simp [all_paths]

theorem py_datetime_eq_self (d : PyDatetime) : py_datetime_eq d d = true := by
  rcases h : d.utcoffset_minutes with _ | o <;> simp [py_datetime_eq, h]

/-- C4: when both modification timestamps parse, the comparison is made on
the parses truncated to whole seconds — parses that agree up to the
microsecond field yield no time difference, and with equal sizes no
record is emitted; when either parse fails, the comparison falls back to
raw string equality of the two timestamp values instead of raising. -/
theorem c4_time_comparison (f : String → Option PyDatetime) :
    (∀ src_mod tgt_mod sdt tdt,
      f (py_replace_char src_mod 'Z' "+00:00") = some sdt →
      f (py_replace_char tgt_mod 'Z' "+00:00") = some tdt →
      modtime_different f src_mod tgt_mod
        = !(py_datetime_eq (replace_microsecond_zero sdt)
            (replace_microsecond_zero tdt))) ∧
    (∀ src_mod tgt_mod sdt tdt,
      f (py_replace_char src_mod 'Z' "+00:00") = some sdt →
      f (py_replace_char tgt_mod 'Z' "+00:00") = some tdt →
      replace_microsecond_zero sdt = replace_microsecond_zero tdt →
      modtime_different f src_mod tgt_mod = false) ∧
    (∀ src tgt p s t sdt tdt,
      dict_get src p = some s → dict_get tgt p = some t → s.size = t.size →
      f (py_replace_char s.mod_time 'Z' "+00:00") = some sdt →
      f (py_replace_char t.mod_time 'Z' "+00:00") = some tdt →
      replace_microsecond_zero sdt = replace_microsecond_zero tdt →
      classify_path f src tgt p = none) ∧
    (∀ src_mod tgt_mod,
      f (py_replace_char src_mod 'Z' "+00:00") = none ∨
      f (py_replace_char tgt_mod 'Z' "+00:00") = none →
      modtime_different f src_mod tgt_mod = decide (src_mod ≠ tgt_mod)) := by
  have key : ∀ src_mod tgt_mod sdt tdt,
      f (py_replace_char src_mod 'Z' "+00:00") = some sdt →
      f (py_replace_char tgt_mod 'Z' "+00:00") = some tdt →
      replace_microsecond_zero sdt = replace_microsecond_zero tdt →
      modtime_different f src_mod tgt_mod = false := by
    intro a b sdt tdt h1 h2 heq
    simp [modtime_different, h1, h2, heq, py_datetime_eq_self]
  refine ⟨?_, key, ?_, ?_⟩
  · intro a b sdt tdt h1 h2
    simp only [modtime_different, h1, h2]
  · intro src tgt p s t sdt tdt hs ht hsize h1 h2 heq
    have hmt := key _ _ _ _ h1 h2 heq
    simp [classify_path, hs, ht, hsize, hmt]
  · intro a b hor
    rcases hor with h | h
    · simp only [modtime_different, h]
    · rcases hfa : f (py_replace_char a 'Z' "+00:00") with _ | u <;>
        simp only [modtime_different, h, hfa]

/-- Witness for C4 with a concrete parser: the tags `s1` and `s2` parse to
datetimes differing only in microseconds and compare as not different,
and unparsable strings fall back to raw string comparison. -/
theorem c4_time_comparison_witness :
    modtime_different sample_fromisoformat "s1" "s2" = false ∧
    modtime_different sample_fromisoformat "x" "y" = decide ("x" ≠ "y") := by
  constructor
  · exact (c4_time_comparison sample_fromisoformat).2.1 "s1" "s2"
      ⟨2024, 1, 2, 3, 4, 5, 100, some 0⟩ ⟨2024, 1, 2, 3, 4, 5, 200, some 0⟩
      (by decide) (by decide) (by decide)
  · exact (c4_time_comparison sample_fromisoformat).2.2.2 "x" "y" (Or.inl (by decide))

theorem find?_path_map_crc (u : FileEntry → FileEntry) (hu : ∀ e, (u e).path = e.path)
    (p : String) : ∀ m : List FileEntry,
    (m.map u).find? (fun e => e.path = p) = (m.find? (fun e => e.path = p)).map u := by
  intro m
  induction m with
  | nil => rfl
  | cons e m ih =>
    by_cases hp : e.path = p
    · rw [List.map_cons, List.find?_cons_of_pos _ (by simp [hu, hp]),
        List.find?_cons_of_pos _ (by simp [hp])]
      rfl
    · rw [List.map_cons, List.find?_cons_of_neg _ (by simp [hu, hp]),
        List.find?_cons_of_neg _ (by simp [hp]), ih]

theorem dict_get_with_crc (g : FileEntry → String) (l : List FileEntry) (p : String) :
    dict_get (with_crc g l) p
      = (dict_get l p).map (fun e => { e with crc := g e }) := by
  unfold dict_get with_crc
  rw [← List.map_reverse,
    find?_path_map_crc (fun e => { e with crc := g e }) (fun e => rfl) p]

theorem all_paths_with_crc (g h : FileEntry → String) (src tgt : List FileEntry) :
    all_paths (with_crc g src) (with_crc h tgt) = all_paths src tgt := by
  have h1 : ∀ (u : FileEntry → String) (l : List FileEntry),
      (with_crc u l).map FileEntry.path = l.map FileEntry.path := by
    intro u l
    unfold with_crc
    rw [List.map_map]
    rfl
  unfold all_paths
  rw [h1, h1]

theorem classify_path_with_crc (f : String → Option PyDatetime)
    (g h : FileEntry → String) (src tgt : List FileEntry) (p : String) :
    classify_path f (with_crc g src) (with_crc h tgt) p
      = classify_path f src tgt p := by
  unfold classify_path
  rw [dict_get_with_crc, dict_get_with_crc]
  rcases hs : dict_get src p with _ | s <;> rcases ht : dict_get tgt p with _ | t <;>
    rfl

/-- C6: a path present in both listings with equal size and no
modification-time difference is never emitted as a record (it is EQUAL)
regardless of the entries' CRC-32 hashes, and rewriting every hash of
either listing leaves the emitted difference list unchanged — the
collected hash is never a change signal. -/
theorem c6_hash_not_used (f : String → Option PyDatetime) (src tgt : List FileEntry) :
    (∀ p s t, dict_get src p = some s → dict_get tgt p = some t →
      s.size = t.size → modtime_different f s.mod_time t.mod_time = false →
      ∀ d ∈ differences f src tgt, d.path ≠ p) ∧
    (∀ g h, differences f (with_crc g src) (with_crc h tgt)
      = differences f src tgt) := by
  constructor
  · intro p s t hs ht hsize hmt d hd hdp
    have hnone : classify_path f src tgt p = none := by
      simp [classify_path, hs, ht, hsize, hmt]
    rcases List.mem_filterMap.mp hd with ⟨q, hq, hcq⟩
    have hqp : q = p := by rw [← classify_path_path hcq]; exact hdp
    rw [hqp, hnone] at hcq
    exact Option.noConfusion hcq
  · intro g h
    unfold differences
    rw [all_paths_sorted, all_paths_sorted, all_paths_with_crc]
    have hfun : classify_path f (with_crc g src) (with_crc h tgt)
        = classify_path f src tgt :=
      funext (classify_path_with_crc f g h src tgt)
    rw [hfun]

/-- Witness for C6: entries equal up to CRC yield no record for their
path, and rewriting the hashes of both listings leaves the output
unchanged. -/
theorem c6_hash_not_used_witness :
    ("a" ∉ (differences sample_fromisoformat
        [⟨"a", "t", 5, "c1", false⟩] [⟨"a", "t", 5, "c2", false⟩]).map Difference.path) ∧
    differences sample_fromisoformat
        (with_crc (fun _ => "zz") [⟨"a", "t", 5, "c1", false⟩])
        (with_crc (fun _ => "") [⟨"a", "t", 5, "c1", false⟩])
      = differences sample_fromisoformat [⟨"a", "t", 5, "c1", false⟩]
          [⟨"a", "t", 5, "c1", false⟩] := by
  constructor
  · intro hmem
    rcases List.mem_map.mp hmem with ⟨d, hd, hdp⟩
    exact (c6_hash_not_used sample_fromisoformat
        [⟨"a", "t", 5, "c1", false⟩] [⟨"a", "t", 5, "c2", false⟩]).1 "a"
      ⟨"a", "t", 5, "c1", false⟩ ⟨"a", "t", 5, "c2", false⟩
      (by decide) (by decide) rfl (by decide) d hd hdp
  · exact (c6_hash_not_used sample_fromisoformat
      [⟨"a", "t", 5, "c1", false⟩] [⟨"a", "t", 5, "c1", false⟩]).2
      (fun _ => "zz") (fun _ => "")

end RclonePapiStCheck

/-! ## Purge triage and CSV batch input (rclone_papi.py) -/

namespace RclonePapi

open PyStr

/-- C7: the purge loop records exactly one log entry per item of the
deletion list and never aborts: a success is logged as purged; a failure
whose error text contains "directory not empty" is a warning and the item
is skipped; otherwise a failure whose text contains "not found" or
"exit status 3" is a warning and the item is skipped; any other failure
is logged as an error — and in every case the loop proceeds to the next
item. -/
theorem c7_purge_triage (root_dst : String) (purge : String → PurgeOutcome)
    (l : List String) :
    List.Forall₂ (triage_spec root_dst purge) l (purge_loop root_dst purge l).2 ∧
    (purge_loop root_dst purge l).2.length = l.length := by
  induction l with
  | nil => exact ⟨List.Forall₂.nil, rfl⟩
  | cons p rest ih =>
    constructor
    · refine List.Forall₂.cons ?_ ih.1
      refine ⟨?_, ?_⟩
      · intro hsucc
        show (match purge (full_dst_path root_dst p) with
          | .success => ((PurgeLog.purged (full_dst_path root_dst p)), true)
          | .failure exc st =>
            let msg := error_msg exc st
            if py_in "directory not empty" msg then
              (.warn_not_empty (full_dst_path root_dst p) msg, false)
            else if py_in "not found" msg || py_in "exit status 3" msg then
              (.warn_not_found (full_dst_path root_dst p) msg, false)
            else (.error_failed (full_dst_path root_dst p) msg, false)).1
          = PurgeLog.purged (full_dst_path root_dst p)
        rw [hsucc]
      · intro exc st hfail
        refine ⟨?_, ?_, ?_⟩
        · intro h1
          show (match purge (full_dst_path root_dst p) with
            | .success => ((PurgeLog.purged (full_dst_path root_dst p)), true)
            | .failure exc st =>
              let msg := error_msg exc st
              if py_in "directory not empty" msg then
                (.warn_not_empty (full_dst_path root_dst p) msg, false)
              else if py_in "not found" msg || py_in "exit status 3" msg then
                (.warn_not_found (full_dst_path root_dst p) msg, false)
              else (.error_failed (full_dst_path root_dst p) msg, false)).1
            = PurgeLog.warn_not_empty (full_dst_path root_dst p) (error_msg exc st)
          rw [hfail]
          simp [h1]
        · intro h1 h2
          show (match purge (full_dst_path root_dst p) with
            | .success => ((PurgeLog.purged (full_dst_path root_dst p)), true)
            | .failure exc st =>
              let msg := error_msg exc st
              if py_in "directory not empty" msg then
                (.warn_not_empty (full_dst_path root_dst p) msg, false)
              else if py_in "not found" msg || py_in "exit status 3" msg then
                (.warn_not_found (full_dst_path root_dst p) msg, false)
              else (.error_failed (full_dst_path root_dst p) msg, false)).1
            = PurgeLog.warn_not_found (full_dst_path root_dst p) (error_msg exc st)
          rw [hfail]
          simp [h1, h2]
        · intro h1 h2
          show (match purge (full_dst_path root_dst p) with
            | .success => ((PurgeLog.purged (full_dst_path root_dst p)), true)
            | .failure exc st =>
              let msg := error_msg exc st
              if py_in "directory not empty" msg then
                (.warn_not_empty (full_dst_path root_dst p) msg, false)
              else if py_in "not found" msg || py_in "exit status 3" msg then
                (.warn_not_found (full_dst_path root_dst p) msg, false)
              else (.error_failed (full_dst_path root_dst p) msg, false)).1
            = PurgeLog.error_failed (full_dst_path root_dst p) (error_msg exc st)
          rw [hfail]
          simp [h1, h2]
    · simp [purge_loop, ih.2]

/-- Witness for C7: a one-item list whose purge fails with
"directory not empty" is logged as a warning and the loop finishes. -/
theorem c7_purge_triage_witness :
    (purge_loop "dst" (fun _ => .failure "directory not empty" none) ["a"]).2
      = [PurgeLog.warn_not_empty (full_dst_path "dst" "a")
          (error_msg "directory not empty" none)] := by
  have h := (c7_purge_triage "dst" (fun _ => .failure "directory not empty" none) ["a"]).1
  rcases List.forall₂_cons_left_iff.mp h with ⟨b, u, hspec, htail, heq⟩
  have hu : u = [] := List.forall₂_nil_left_iff.mp htail
  subst hu
  have hb := (hspec.2 "directory not empty" none rfl).1 (by decide)
  rw [heq, hb]

theorem process_rows_skip_short (rest : List (List String)) (row : List String)
    (hlen : row.length < 2) :
    process_rows (row :: rest) = process_rows rest := by
  rcases row with _ | ⟨a, _ | ⟨b, tl⟩⟩
  · rfl
  · rfl
  · exfalso
    simp at hlen
    omega

theorem process_rows_skip_blank (rest : List (List String)) (r0 r1 : String)
    (tl : List String) (hbad : py_strip r0 = "" ∨ py_strip r1 = "") :
    process_rows ((r0 :: r1 :: tl) :: rest) = process_rows rest := by
  simp only [process_rows]
  rw [if_pos hbad]

theorem process_rows_keep (rest : List (List String)) (r0 r1 : String)
    (tl : List String) (h0 : py_strip r0 ≠ "") (h1 : py_strip r1 ≠ "") :
    process_rows ((r0 :: r1 :: tl) :: rest)
      = (py_replace_char (py_strip r0) '\\' "/", py_strip_char (py_strip r1) '"')
          :: process_rows rest := by
  simp only [process_rows]
  rw [if_neg (not_or.mpr ⟨h0, h1⟩)]

/-- C8: the batch CSV loop skips the header row; a row with fewer than two
columns, or with a blank (whitespace-stripped) source or destination
column, is skipped without error and adds no pair; a kept row contributes
the stripped source with every backslash replaced by a forward slash, and
the stripped destination with surrounding double quotes removed. -/
theorem c8_csv_row_filter :
    (∀ h1 h2 rows, folders_to_sync (h1 :: rows) = folders_to_sync (h2 :: rows)) ∧
    (∀ header rest row, row.length < 2 →
      folders_to_sync (header :: row :: rest) = folders_to_sync (header :: rest)) ∧
    (∀ header rest r0 r1 tl, py_strip r0 = "" ∨ py_strip r1 = "" →
      folders_to_sync (header :: (r0 :: r1 :: tl) :: rest)
        = folders_to_sync (header :: rest)) ∧
    (∀ header rest r0 r1 tl, py_strip r0 ≠ "" → py_strip r1 ≠ "" →
      folders_to_sync (header :: (r0 :: r1 :: tl) :: rest)
        = (py_replace_char (py_strip r0) '\\' "/", py_strip_char (py_strip r1) '"')
            :: folders_to_sync (header :: rest)) := by
  refine ⟨fun h1 h2 rows => rfl, ?_, ?_, ?_⟩
  · intro header rest row hlen
    exact process_rows_skip_short rest row hlen
  · intro header rest r0 r1 tl hbad
    exact process_rows_skip_blank rest r0 r1 tl hbad
  · intro header rest r0 r1 tl h0 h1
    exact process_rows_keep rest r0 r1 tl h0 h1

/-- Witness for C8: a row with padded, backslashed source and a quoted
destination is kept and normalized. -/
theorem c8_csv_row_filter_witness :
    folders_to_sync [["header1", "header2"], [" a\\b ", " \"d\" "]] = [("a/b", "d")] := by
  have h := c8_csv_row_filter.2.2.2 ["header1", "header2"] [] " a\\b " " \"d\" " []
    (by decide) (by decide)
  rw [h]
  decide

theorem py_strip_char_all_eq (s : String) (c : Char)
    (h : s.data.all (· = c) = true) : py_strip_char s c = "" := by
  unfold py_strip_char
  have hnil : s.data.dropWhile (· = c) = [] := by
    rw [List.dropWhile_eq_nil_iff]
    intro a ha
    simpa using List.all_eq_true.mp h a ha
  rw [hnil]
  rfl

/-- C9: a row whose destination column is non-blank but consists only of
double-quote characters is not skipped — the emptiness check runs before
quote stripping — so the row is appended with an empty destination
string. -/
theorem c9_quote_only_destination (header : List String) (rest : List (List String))
    (r0 r1 : String) (tl : List String)
    (h0 : py_strip r0 ≠ "") (h1 : py_strip r1 ≠ "")
    (hq : (py_strip r1).data.all (· = '"') = true) :
    folders_to_sync (header :: (r0 :: r1 :: tl) :: rest)
      = (py_replace_char (py_strip r0) '\\' "/", "")
          :: folders_to_sync (header :: rest) := by
  show process_rows ((r0 :: r1 :: tl) :: rest) = _ :: process_rows rest
  rw [process_rows_keep rest r0 r1 tl h0 h1, py_strip_char_all_eq _ _ hq]

/-- Witness for C9: the two-character destination consisting of two double
quotes survives the filter and is appended with an empty destination. -/
theorem c9_quote_only_destination_witness :
    folders_to_sync [["s", "t"], ["a", "\"\""]] = [("a", "")] := by
  have h := c9_quote_only_destination ["s", "t"] [] "a" "\"\"" []
    (by decide) (by decide) (by decide)
  rw [h]
  decide

end RclonePapi
